import Mathlib

/-!
Shallow embedding of the `bajaj-bfhl-api` request handler (`src/api/index.js`).

The repository exposes one POST endpoint that dispatches on which of the five
recognized keys (`fibonacci`, `prime`, `lcm`, `hcf`, `AI`) is present in the
JSON request body, validates that key's value, runs the matching operation and
wraps the result in a fixed response envelope.  JavaScript numbers that pass
`Number.isInteger` are modelled as `Int`; JSON values the handler can see are
modelled by `JVal`; the external AI service is modelled by the list of outcomes
(one per attempted model) that the `askAI` fallback loop would observe.
-/

namespace Bfhl

/-- A JSON value as the handler can observe it.  `jint` is a number accepted by
`Number.isInteger`, `jnum` any other number, `jobj` a nested object (never
inspected further by the handler). -/
inductive JVal where
  | jnull
  | jbool (b : Bool)
  | jint (n : Int)
  | jnum
  | jstr (s : String)
  | jarr (elems : List JVal)
  | jobj

/-- Constant `OFFICIAL_EMAIL` (line 29 of `src/api/index.js`). -/
def OFFICIAL_EMAIL : String := "lavish2052.be23@chitkara.edu.in"

/-- Result payload of a successful operation: a list of integers
(`fibonacci`/`prime`), a single integer (`lcm`/`hcf`) or a word (`AI`). -/
inductive RData where
  | ints (l : List Int)
  | int (n : Int)
  | str (s : String)
deriving DecidableEq

/-- Body of a success response (`successResponse`, lines 37-43). -/
structure SuccessBody where
  is_success : Bool
  official_email : String
  data : RData
deriving DecidableEq

/-- Body of an error response (`errorResponse`, lines 48-54). -/
structure ErrorBody where
  is_success : Bool
  official_email : String
  error : String
deriving DecidableEq

/-- `successResponse` builds the success envelope. -/
def successResponse (data : RData) : SuccessBody :=
  { is_success := true, official_email := OFFICIAL_EMAIL, data := data }

/-- `errorResponse` builds the error envelope. -/
def errorResponse (message : String) : ErrorBody :=
  { is_success := false, official_email := OFFICIAL_EMAIL, error := message }

/-- An emitted HTTP response: status code plus envelope. -/
inductive Response where
  | ok (status : Nat) (body : SuccessBody)
  | err (status : Nat) (body : ErrorBody)
deriving DecidableEq

/-- Loop body of `fibonacci` (lines 63-66): given the last two elements of the
series, produce the `k` elements still to be pushed. -/
def fibStep : Nat → Int → Int → List Int
  | 0, _, _ => []
  | k + 1, a, b => (a + b) :: fibStep k b (a + b)

/-- `fibonacci` (lines 60-68): the guards for `n <= 0` and `n === 1`, then the
push loop starting from the seed `[0, 1]` running for indices `2 ≤ i < n`. -/
def fibonacci (n : Int) : List Int :=
  if n ≤ 0 then []
  else if n = 1 then [0]
  else 0 :: 1 :: fibStep (n.toNat - 2) 0 1

/-- Trial-division loop of `isPrime` (lines 77-79): `for (i = 3; i <=
Math.sqrt(num); i += 2)`.  For natural `i` and `n` the loop condition
`i <= Math.sqrt(n)` holds exactly when `i * i ≤ n`, which is how it is
written here; `fuel` is a structural bound on the number of iterations and
never runs out when started at `n` (the loop stops once `i * i > n`). -/
def oddTrial (n : Nat) : Nat → Nat → Bool
  | _, 0 => true
  | i, fuel + 1 =>
    if i * i ≤ n then (if n % i = 0 then false else oddTrial n (i + 2) fuel)
    else true

/-- `isPrime` (lines 73-81). -/
def isPrime (num : Int) : Bool :=
  if num < 2 then false
  else if num = 2 then true
  else if num % 2 = 0 then false
  else oddTrial num.toNat 3 num.toNat

/-- `filterPrimes` (lines 86-88). -/
def filterPrimes (arr : List Int) : List Int :=
  arr.filter isPrime

/-- The `while (b)` loop of `gcd` (lines 96-98), running on the absolute
values. -/
def gcdLoop (a b : Nat) : Nat :=
  if h : b = 0 then a else gcdLoop b (a % b)
termination_by b
decreasing_by exact Nat.mod_lt _ (Nat.pos_of_ne_zero h)

/-- `gcd` (lines 93-100): take absolute values, then the Euclidean loop. -/
def gcd (a b : Int) : Int :=
  Int.ofNat (gcdLoop a.natAbs b.natAbs)

/-- `lcm` (lines 105-108): `0` when either operand is `0`, else
`Math.abs(a*b) / gcd(a, b)` (the division is exact, so JavaScript float
division agrees with integer division). -/
def lcm (a b : Int) : Int :=
  if a = 0 ∨ b = 0 then 0 else Int.ofNat (a * b).natAbs / gcd a b

/-- `lcmArray` (lines 113-115): seeded left fold. -/
def lcmArray (arr : List Int) : Int :=
  arr.foldl (fun acc val => lcm acc val) 1

/-- `hcfArray` (lines 120-122): `reduce` with no initial value.  On an empty
array JavaScript `reduce` throws, which the `none` branch models; otherwise
the first element seeds the fold. -/
def hcfArray (arr : List Int) : Option Int :=
  match arr with
  | [] => none
  | x :: xs => some (xs.foldl (fun acc val => gcd acc val) x)

/-- The fixed ordered model list of `askAI` (line 130). -/
def models : List String :=
  ["gemini-2.5-flash", "gemini-2.0-flash", "gemini-2.0-flash-lite"]

/-- Character-level model of JavaScript `String.prototype.trim`. -/
def trimChars (l : List Char) : List Char :=
  ((l.dropWhile Char.isWhitespace).reverse.dropWhile Char.isWhitespace).reverse

/-- Post-processing of a successful model response (line 140):
`text.trim().split(/\s+/)[0].replace(/[^a-zA-Z0-9]/g, "")` — the first
whitespace-delimited token of the trimmed text, keeping only ASCII
alphanumeric characters. -/
def extractWord (t : String) : String :=
  String.mk
    (((trimChars t.data).takeWhile fun c => !c.isWhitespace).filter
      fun c => c.isAlpha || c.isDigit)

/-- The `for (const modelName of models)` loop of `askAI` (lines 134-148),
parametrised by the outcome each model call would have: it returns the
processed text of the first successful call, remembers the latest error in
`lastError`, and after exhausting the list throws
`lastError || new Error("All AI models failed.")`. -/
def askAIGo : List (Except String String) → Option String → Except String String
  | [], lastError => Except.error (lastError.getD "All AI models failed.")
  | Except.ok t :: _, _ => Except.ok (extractWord t)
  | Except.error e :: rest, _ => askAIGo rest (some e)

/-- `askAI` (lines 128-149) with `lastError` initially `null`. -/
def askAI (attempts : List (Except String String)) : Except String String :=
  askAIGo attempts none

/-- `isValidInteger` (lines 153-155): `Number.isInteger(val)`. -/
def isValidInteger : JVal → Bool
  | .jint _ => true
  | _ => false

/-- `isValidIntegerArray` (lines 157-159): a non-empty array whose elements
all pass `Number.isInteger`. -/
def isValidIntegerArray : JVal → Bool
  | .jarr l => decide (0 < l.length) && l.all isValidInteger
  | _ => false

/-- `isNonEmptyString` (lines 161-163): a string with `trim().length > 0`. -/
def isNonEmptyString : JVal → Bool
  | .jstr s => decide (0 < (trimChars s.data).length)
  | _ => false

/-- Numeric payload of an integer JSON value. -/
def asInt : JVal → Option Int
  | .jint n => some n
  | _ => none

/-- The integers carried by a validated integer-array value. -/
def extractInts : JVal → List Int
  | .jarr l => l.filterMap asInt
  | _ => []

/-- The five recognized operation keys (`validKeys`, line 200). -/
inductive OpKey where
  | fibonacci
  | prime
  | lcm
  | hcf
  | AI
deriving DecidableEq

/-- A JSON object request body, restricted to the five properties the handler
ever reads; unrecognized extra properties are never inspected and are not
modelled. -/
structure BfhlObj where
  fibonacci : Option JVal
  prime : Option JVal
  lcm : Option JVal
  hcf : Option JVal
  AI : Option JVal

/-- A parsed request body: either not a usable object (absent, a primitive, or
an array — the guard on line 195) or a JSON object. -/
inductive ReqBody where
  | notObject
  | obj (o : BfhlObj)

/-- `body.hasOwnProperty(k)` / `body[k]` for a recognized key. -/
def getProp (o : BfhlObj) : OpKey → Option JVal
  | .fibonacci => o.fibonacci
  | .prime => o.prime
  | .lcm => o.lcm
  | .hcf => o.hcf
  | .AI => o.AI

/-- `validKeys` (line 200), in source order. -/
def validKeys : List OpKey :=
  [.fibonacci, .prime, .lcm, .hcf, .AI]

/-- `presentKeys` (line 201): the recognized keys present as direct properties
of the body, in scan order. -/
def presentKeys (o : BfhlObj) : List OpKey :=
  validKeys.filter fun k => (getProp o k).isSome

/-- Shared message of the two key-count failures (lines 206 and 212). -/
def exactlyOneMsg : String :=
  "Request must contain exactly one of: fibonacci, prime, lcm, hcf, AI."

/-- The five per-operation blocks of the handler (lines 218-272): validate the
selected key's value, run the operation, wrap the outcome.  `aiAttempts` lists
the outcome each AI model call would have, consumed only on the `AI` path.
The `none` result of `hcfArray` on an empty list corresponds to the exception
JavaScript `reduce` throws, which the surrounding `try` turns into a 500
response. -/
def dispatch (key : OpKey) (value : JVal)
    (aiAttempts : List (Except String String)) : Response :=
  match key with
  | .fibonacci =>
    match asInt value with
    | some n =>
      if n < 0 then
        .err 400 (errorResponse "'fibonacci' must be a non-negative integer.")
      else .ok 200 (successResponse (.ints (fibonacci n)))
    | none => .err 400 (errorResponse "'fibonacci' must be a non-negative integer.")
  | .prime =>
    if isValidIntegerArray value then
      .ok 200 (successResponse (.ints (filterPrimes (extractInts value))))
    else .err 400 (errorResponse "'prime' must be a non-empty array of integers.")
  | .lcm =>
    if isValidIntegerArray value then
      .ok 200 (successResponse (.int (lcmArray (extractInts value))))
    else .err 400 (errorResponse "'lcm' must be a non-empty array of integers.")
  | .hcf =>
    if isValidIntegerArray value then
      match hcfArray (extractInts value) with
      | some r => .ok 200 (successResponse (.int r))
      | none => .err 500 (errorResponse "Internal server error.")
    else .err 400 (errorResponse "'hcf' must be a non-empty array of integers.")
  | .AI =>
    if isNonEmptyString value then
      match askAI aiAttempts with
      | .ok answer => .ok 200 (successResponse (.str answer))
      | .error _ =>
        .err 503 (errorResponse "AI service is temporarily unavailable. Please try again later.")
    else .err 400 (errorResponse "'AI' must be a non-empty string question.")

/-- The `POST /bfhl` handler (lines 190-277): the body-shape guard, the
key-count checks on `presentKeys`, then the matched operation's block with
`value = body[key]`. -/
def handle (body : ReqBody) (aiAttempts : List (Except String String)) : Response :=
  match body with
  | .notObject => .err 400 (errorResponse "Request body must be a valid JSON object.")
  | .obj o =>
    match presentKeys o with
    | [] => .err 400 (errorResponse exactlyOneMsg)
    | key :: rest =>
      if 0 < rest.length then .err 400 (errorResponse exactlyOneMsg)
      else dispatch key ((getProp o key).getD .jnull) aiAttempts

/-- Reference primality predicate, stated in the spec's own words: an element
is prime iff it is at least 2 and has no divisor in `[2, sqrt(element)]`.
Written independently of `isPrime` so the two can be compared. -/
def specPrime (x : Int) : Prop :=
  2 ≤ x ∧ ∀ d : Nat, 2 ≤ d → d ≤ Nat.sqrt x.toNat → ¬ ((d : Int) ∣ x)

/-- Pairwise LCM combiner, stated in the spec's own words:
`lcm(a,b) = |a*b| / gcd(a,b)`, with `0` whenever either operand is `0`.
Written with Mathlib's `Int.gcd`, independently of the source's `lcm`. -/
def specLcmCombine (a b : Int) : Int :=
  if a = 0 ∨ b = 0 then 0 else |a * b| / (Int.gcd a b : Int)


theorem gcdLoop_eq_gcd (a b : Nat) : gcdLoop a b = Nat.gcd a b := by
  induction b using Nat.strong_induction_on generalizing a with
  | _ b ih =>
    rw [gcdLoop]
    split
    · rename_i h
      subst h
      simp [Nat.gcd_zero_right]
    · rename_i h
      rw [ih _ (Nat.mod_lt _ (Nat.pos_of_ne_zero h)), Nat.gcd_comm b (a % b),
        ← Nat.gcd_rec b a, Nat.gcd_comm b a]

theorem gcd_eq (a b : Int) : gcd a b = (Nat.gcd a.natAbs b.natAbs : Int) := by
  rw [gcd, gcdLoop_eq_gcd, Int.ofNat_eq_natCast]

theorem lcm_eq (a b : Int) : lcm a b = (Nat.lcm a.natAbs b.natAbs : Int) := by
  rw [lcm]
  split
  · rename_i h
    rcases h with h | h <;> subst h <;> simp [Nat.lcm]
  · rename_i h
    rw [gcd_eq, Int.ofNat_eq_natCast, Nat.lcm, Int.ofNat_ediv, Int.natAbs_mul]

theorem foldl_gcd_eq (xs : List Int) (a : Nat) :
    xs.foldl (fun acc val => gcd acc val) (a : Int) =
      (((xs.map Int.natAbs).foldl Nat.gcd a : Nat) : Int) := by
  induction xs generalizing a with
  | nil => rfl
  | cons x xs ih =>
    simp only [List.foldl_cons, List.map_cons]
    rw [gcd_eq]
    · exact ih (Nat.gcd a x.natAbs)

theorem foldl_lcm_eq (xs : List Int) (a : Nat) :
    xs.foldl (fun acc val => lcm acc val) (a : Int) =
      (((xs.map Int.natAbs).foldl Nat.lcm a : Nat) : Int) := by
  induction xs generalizing a with
  | nil => rfl
  | cons x xs ih =>
    simp only [List.foldl_cons, List.map_cons]
    rw [lcm_eq]
    · exact ih (Nat.lcm a x.natAbs)

theorem lcmArray_eq (xs : List Int) :
    lcmArray xs = (((xs.map Int.natAbs).foldl Nat.lcm 1 : Nat) : Int) := by
  rw [lcmArray, show (1 : Int) = ((1 : Nat) : Int) from rfl, foldl_lcm_eq]

theorem hcfArray_two (x y : Int) (ys : List Int) :
    hcfArray (x :: y :: ys) =
      some ((((x :: y :: ys).map Int.natAbs).foldl Nat.gcd 0 : Nat) : Int) := by
  simp only [hcfArray, List.foldl_cons, List.map_cons, Nat.gcd_zero_left]
  rw [gcd_eq, foldl_gcd_eq]



theorem handle_singleKey (o : BfhlObj) (k : OpKey) (ai : List (Except String String))
    (h : presentKeys o = [k]) :
    handle (.obj o) ai = dispatch k ((getProp o k).getD .jnull) ai := by
  rw [handle, h]
  rfl

theorem validArray_extractInts_ne_nil (v : JVal) (h : isValidIntegerArray v = true) :
    extractInts v ≠ [] := by
  cases v <;> simp [isValidIntegerArray] at h
  rename_i l
  obtain ⟨hlen, hall⟩ := h
  cases l with
  | nil => simp at hlen
  | cons w rest =>
    have hw := hall w (by simp)
    cases w <;> simp [isValidInteger] at hw
    simp [extractInts, asInt]

theorem hcfArray_isSome_of_ne_nil (l : List Int) (h : l ≠ []) :
    (hcfArray l).isSome = true := by
  cases l with
  | nil => exact absurd rfl h
  | cons x xs => simp [hcfArray]


theorem fibStep_length (k : Nat) (a b : Int) : (fibStep k a b).length = k := by
  induction k generalizing a b with
  | zero => rfl
  | succ k ih => simp [fibStep, ih]

theorem fibStep_cons (k : Nat) (a b : Int) :
    a :: b :: fibStep (k + 1) a b = a :: (b :: (a + b) :: fibStep k b (a + b)) := rfl

theorem fib_window (k : Nat) :
    ∀ (a b : Int) (i : Nat), i + 2 < k + 2 →
      (a :: b :: fibStep k a b).getD (i + 2) 0 =
        (a :: b :: fibStep k a b).getD i 0 + (a :: b :: fibStep k a b).getD (i + 1) 0 := by
  induction k with
  | zero => intro a b i h; omega
  | succ k ih =>
    intro a b i h
    have hrw : a :: b :: fibStep (k + 1) a b = a :: (b :: (a + b) :: fibStep k b (a + b)) := rfl
    rw [hrw]
    cases i with
    | zero =>
      simp [List.getD_cons_succ, List.getD_cons_zero]
    | succ j =>
      simp only [List.getD_cons_succ]
      exact ih b (a + b) j (by omega)

theorem fibonacci_two_le (n : Int) (h : 2 ≤ n) :
    fibonacci n = 0 :: 1 :: fibStep (n.toNat - 2) 0 1 := by
  rw [fibonacci, if_neg (by omega), if_neg (by omega)]

theorem fibonacci_length (n : Int) (h : 0 ≤ n) : (fibonacci n).length = n.toNat := by
  rcases lt_or_le n 1 with h1 | h1
  · have : n = 0 := by omega
    subst this
    rfl
  · rcases lt_or_le n 2 with h2 | h2
    · have : n = 1 := by omega
      subst this
      rfl
    · rw [fibonacci_two_le n h2]
      simp [fibStep_length]
      omega

theorem fibonacci_recurrence (n : Int) (i : Nat) (h2 : i + 2 < (fibonacci n).length) :
    (fibonacci n).getD (i + 2) 0 =
      (fibonacci n).getD i 0 + (fibonacci n).getD (i + 1) 0 := by
  rcases le_or_lt 2 n with h | h
  · rw [fibonacci_two_le n h] at h2 ⊢
    refine fib_window _ 0 1 i ?_
    simpa [fibStep_length] using h2
  · exfalso
    have : (fibonacci n).length ≤ 1 := by
      rw [fibonacci]
      split
      · simp
      · split
        · simp
        · omega
    omega


theorem oddTrial_iff (n : Nat) :
    ∀ (fuel i : Nat), n < (i + 2 * fuel) * (i + 2 * fuel) →
      (oddTrial n i fuel = true ↔
        ∀ k : Nat, (i + 2 * k) * (i + 2 * k) ≤ n → ¬ (i + 2 * k) ∣ n) := by
  intro fuel
  induction fuel with
  | zero =>
    intro i hbound
    simp only [Nat.mul_zero, Nat.add_zero] at hbound
    refine iff_of_true rfl ?_
    intro k hk
    exfalso
    have : i * i ≤ (i + 2 * k) * (i + 2 * k) := Nat.mul_le_mul (by omega) (by omega)
    omega
  | succ fuel ih =>
    intro i hbound
    rw [oddTrial]
    by_cases h1 : i * i ≤ n
    · rw [if_pos h1]
      by_cases h2 : n % i = 0
      · rw [if_pos h2]
        refine iff_of_false (by simp) ?_
        intro hall
        have h0 := hall 0 (by simpa using h1)
        simp only [Nat.mul_zero, Nat.add_zero] at h0
        exact h0 (Nat.dvd_iff_mod_eq_zero.mpr h2)
      · rw [if_neg h2]
        have hb : n < (i + 2 + 2 * fuel) * (i + 2 + 2 * fuel) := by
          have : i + 2 + 2 * fuel = i + 2 * (fuel + 1) := by omega
          rw [this]
          exact hbound
        rw [ih (i + 2) hb]
        constructor
        · intro hnext k hk
          cases k with
          | zero =>
            simp only [Nat.mul_zero, Nat.add_zero]
            intro hdvd
            exact h2 (Nat.dvd_iff_mod_eq_zero.mp hdvd)
          | succ j =>
            have : i + 2 * (j + 1) = i + 2 + 2 * j := by omega
            rw [this]
            have hk' : (i + 2 + 2 * j) * (i + 2 + 2 * j) ≤ n := by
              rw [← this]
              exact hk
            exact hnext j hk'
        · intro hall k hk
          have : i + 2 + 2 * k = i + 2 * (k + 1) := by omega
          rw [this]
          refine hall (k + 1) ?_
          rw [← this]
          exact hk
    · rw [if_neg h1]
      refine iff_of_true rfl ?_
      intro k hk
      exfalso
      have : i * i ≤ (i + 2 * k) * (i + 2 * k) := Nat.mul_le_mul (by omega) (by omega)
      omega


theorem isPrime_iff (x : Int) : isPrime x = true ↔ specPrime x := by
  rcases lt_or_le x 2 with hlt | hge
  · rw [isPrime, if_pos hlt]
    refine iff_of_false (by simp) ?_
    intro hs
    exact absurd hs.1 (by omega)
  · have hx0 : (0 : Int) ≤ x := by omega
    have hcast : ((x.toNat : Int)) = x := Int.toNat_of_nonneg hx0
    have hN2 : 2 ≤ x.toNat := by omega
    rcases eq_or_lt_of_le hge with heq | hgt
    · rw [isPrime, if_neg (by omega), if_pos heq.symm]
      refine iff_of_true rfl ?_
      refine ⟨hge, ?_⟩
      intro d hd2 hdle
      have : x.toNat = 2 := by omega
      rw [this] at hdle
      have : Nat.sqrt 2 < 2 := Nat.sqrt_lt_self (by omega)
      omega
    · by_cases heven : x % 2 = 0
      · rw [isPrime, if_neg (by omega), if_neg (by omega), if_pos heven]
        refine iff_of_false (by simp) ?_
        intro hs
        have h4 : 4 ≤ x.toNat := by omega
        have hsq : 2 ≤ Nat.sqrt x.toNat := Nat.le_sqrt.mpr (by omega)
        refine hs.2 2 (by omega) hsq ?_
        exact Int.dvd_of_emod_eq_zero heven
      · rw [isPrime, if_neg (by omega), if_neg (by omega), if_neg heven]
        have hbound : x.toNat < (3 + 2 * x.toNat) * (3 + 2 * x.toNat) := by nlinarith
        rw [oddTrial_iff x.toNat x.toNat 3 hbound]
        have hoddN : x.toNat % 2 = 1 := by omega
        constructor
        · intro hloop
          refine ⟨hge, ?_⟩
          intro d hd2 hdle hdvd
          have hdvdN : d ∣ x.toNat := by
            rwa [← hcast, Int.natCast_dvd_natCast] at hdvd
          by_cases hodd : d % 2 = 1
          · have hd3 : 3 ≤ d := by omega
            obtain ⟨k, hk⟩ : ∃ k, d = 3 + 2 * k := ⟨(d - 3) / 2, by omega⟩
            have hsq : d * d ≤ x.toNat := Nat.le_sqrt.mp hdle
            refine hloop k ?_ ?_
            · rw [← hk]; exact hsq
            · rw [← hk]; exact hdvdN
          · have h2d : 2 ∣ d := by omega
            have h2N : 2 ∣ x.toNat := h2d.trans hdvdN
            omega
        · intro hs k hk hdvd
          have hd2 : 2 ≤ 3 + 2 * k := by omega
          have hdle : 3 + 2 * k ≤ Nat.sqrt x.toNat := Nat.le_sqrt.mpr hk
          refine hs.2 (3 + 2 * k) hd2 hdle ?_
          rw [← hcast, Int.natCast_dvd_natCast]
          exact hdvd




theorem lcm_eq_spec (a b : Int) : lcm a b = specLcmCombine a b := by
  rw [specLcmCombine]
  split
  · rename_i h
    rw [lcm, if_pos h]
  · rename_i h
    push_neg at h
    rw [lcm_eq, ← Int.natCast_natAbs, Int.natAbs_mul]
    show ((Nat.lcm a.natAbs b.natAbs : Nat) : Int) = _
    rw [Nat.lcm, Int.ofNat_ediv]
    rfl

theorem natLcm_eq_zero_iff (m n : Nat) : Nat.lcm m n = 0 ↔ m = 0 ∨ n = 0 := by
  constructor
  · intro h
    by_contra hc
    push_neg at hc
    exact (Nat.lcm_pos (Nat.pos_of_ne_zero hc.1) (Nat.pos_of_ne_zero hc.2)).ne' h
  · rintro (h | h) <;> subst h <;> simp [Nat.lcm_zero_left, Nat.lcm_zero_right]

theorem foldl_natLcm_zero_iff (l : List Nat) (a : Nat) :
    l.foldl Nat.lcm a = 0 ↔ a = 0 ∨ 0 ∈ l := by
  induction l generalizing a with
  | nil => simp
  | cons x xs ih =>
    simp only [List.foldl_cons, ih, natLcm_eq_zero_iff, List.mem_cons]
    constructor
    · rintro ((h | h) | h)
      · exact Or.inl h
      · exact Or.inr (Or.inl h.symm)
      · exact Or.inr (Or.inr h)
    · rintro (h | h | h)
      · exact Or.inl (Or.inl h)
      · exact Or.inl (Or.inr h.symm)
      · exact Or.inr h

theorem lcmArray_zero_iff (xs : List Int) : lcmArray xs = 0 ↔ (0 : Int) ∈ xs := by
  rw [lcmArray_eq]
  rw [show ((((xs.map Int.natAbs).foldl Nat.lcm 1 : Nat) : Int) = 0) ↔
      ((xs.map Int.natAbs).foldl Nat.lcm 1 = 0) from Int.natCast_eq_zero]
  rw [foldl_natLcm_zero_iff]
  simp [List.mem_map, Int.natAbs_eq_zero]



instance : Std.Commutative Nat.gcd := ⟨Nat.gcd_comm⟩

instance : Std.Associative Nat.gcd := ⟨Nat.gcd_assoc⟩

instance : Std.Commutative Nat.lcm := ⟨Nat.lcm_comm⟩

instance : Std.Associative Nat.lcm := ⟨Nat.lcm_assoc⟩

theorem lcmArray_perm (xs ys : List Int) (h : ys.Perm xs) : lcmArray ys = lcmArray xs := by
  rw [lcmArray_eq, lcmArray_eq]
  exact congrArg _ ((h.map Int.natAbs).foldl_eq 1)

theorem hcfArray_perm (xs ys : List Int) (hne : xs ≠ []) (h : ys.Perm xs) :
    hcfArray ys = hcfArray xs := by
  match xs, ys, h with
  | [], _, _ => exact absurd rfl hne
  | [x], ys, h =>
    rw [List.perm_singleton.mp h]
  | x :: y :: rest, ys, h =>
    have hlen : 2 ≤ ys.length := by
      rw [h.length_eq]
      simp
    match ys with
    | y1 :: y2 :: rest2 =>
      rw [hcfArray_two, hcfArray_two]
      exact congrArg _ (congrArg _ ((h.map Int.natAbs).foldl_eq 0))

theorem askAIGo_errors_append (es : List String) (tail : List (Except String String))
    (acc : Option String) :
    askAIGo (es.map Except.error ++ tail) acc = askAIGo tail (es.getLast?.or acc) := by
  induction es generalizing acc with
  | nil => simp [Option.or]
  | cons e es ih =>
    simp only [List.map_cons, List.cons_append, askAIGo, List.append_eq]
    rw [ih (some e)]
    congr 1
    cases es with
    | nil => simp [Option.or]
    | cons e2 es2 =>
      rw [List.getLast?_cons_cons]
      have : (e2 :: es2).getLast?.isSome = true := by
        simp [List.getLast?_isSome]
      obtain ⟨w, hw⟩ := Option.isSome_iff_exists.mp this
      rw [hw]
      simp [Option.or]



theorem askAI_first_success (es : List String) (t : String)
    (rest : List (Except String String)) :
    askAI (es.map Except.error ++ Except.ok t :: rest) = Except.ok (extractWord t) := by
  rw [askAI, askAIGo_errors_append]
  rfl

theorem askAI_all_errors (es : List String) :
    askAI (es.map Except.error) =
      Except.error (es.getLast?.getD "All AI models failed.") := by
  rw [askAI, ← List.append_nil (es.map Except.error), askAIGo_errors_append]
  cases es.getLast? <;> simp [askAIGo, Option.or]

theorem askAIGo_error_all (attempts : List (Except String String)) (acc : Option String)
    (e : String) (h : askAIGo attempts acc = Except.error e) :
    ∀ a ∈ attempts, ∃ msg, a = Except.error msg := by
  induction attempts generalizing acc with
  | nil => simp
  | cons hd tl ih =>
    cases hd with
    | ok t => simp [askAIGo] at h
    | error msg =>
      intro a ha
      rcases List.mem_cons.mp ha with rfl | ha
      · exact ⟨msg, rfl⟩
      · exact ih (some msg) h a ha



/-- C1: a JSON object body with exactly one recognized key whose value passes
that operation's shape validation is dispatched to the matched operation and
answered with status 200 and a success envelope holding the operation's
result (for `AI`, assuming some model call succeeds). -/
theorem dispatcher_single_valid_key_success (o : BfhlObj) (ai : List (Except String String)) :
    (∀ n : Int, presentKeys o = [.fibonacci] → getProp o .fibonacci = some (.jint n) →
      0 ≤ n → handle (.obj o) ai = .ok 200 (successResponse (.ints (fibonacci n)))) ∧
    (∀ v : JVal, presentKeys o = [.prime] → getProp o .prime = some v →
      isValidIntegerArray v = true →
      handle (.obj o) ai = .ok 200 (successResponse (.ints (filterPrimes (extractInts v))))) ∧
    (∀ v : JVal, presentKeys o = [.lcm] → getProp o .lcm = some v →
      isValidIntegerArray v = true →
      handle (.obj o) ai = .ok 200 (successResponse (.int (lcmArray (extractInts v))))) ∧
    (∀ v : JVal, presentKeys o = [.hcf] → getProp o .hcf = some v →
      isValidIntegerArray v = true →
      ∃ r : Int, hcfArray (extractInts v) = some r ∧
        handle (.obj o) ai = .ok 200 (successResponse (.int r))) ∧
    (∀ (s : String) (w : String), presentKeys o = [.AI] → getProp o .AI = some (.jstr s) →
      isNonEmptyString (.jstr s) = true → askAI ai = .ok w →
      handle (.obj o) ai = .ok 200 (successResponse (.str w))) := by
  refine ⟨?_, ?_, ?_, ?_, ?_⟩
  · intro n hp hv hn
    rw [handle_singleKey o _ ai hp, hv]
    simp [dispatch, asInt, Int.not_lt.mpr hn]
  · intro v hp hv hval
    rw [handle_singleKey o _ ai hp, hv]
    simp [dispatch, hval]
  · intro v hp hv hval
    rw [handle_singleKey o _ ai hp, hv]
    simp [dispatch, hval]
  · intro v hp hv hval
    obtain ⟨r, hr⟩ := Option.isSome_iff_exists.mp
      (hcfArray_isSome_of_ne_nil _ (validArray_extractInts_ne_nil v hval))
    refine ⟨r, hr, ?_⟩
    rw [handle_singleKey o _ ai hp, hv]
    simp [dispatch, hval, hr]
  · intro s w hp hv hs hai
    rw [handle_singleKey o _ ai hp, hv]
    simp [dispatch, hs, hai]

/-- Witness for C1: the `fibonacci` arm at a concrete validated request. -/
theorem dispatcher_single_valid_key_success_witness :
    0 ≤ (5 : Int) ∧
      handle (.obj ⟨some (.jint 5), none, none, none, none⟩) [] =
        .ok 200 (successResponse (.ints (fibonacci 5))) :=
  ⟨by decide,
    (dispatcher_single_valid_key_success ⟨some (.jint 5), none, none, none, none⟩ []).1
      5 (by decide) rfl (by decide)⟩

/-- C2: a JSON object body in which the count of recognized keys is 0 or more
than 1 is rejected with status 400 and the error envelope, regardless of the
values present; no operation runs. -/
theorem dispatcher_key_count_rejection (o : BfhlObj) (ai : List (Except String String))
    (h : (presentKeys o).length = 0 ∨ 1 < (presentKeys o).length) :
    handle (.obj o) ai = .err 400 (errorResponse exactlyOneMsg) := by
  cases hpk : presentKeys o with
  | nil => simp [handle, hpk]
  | cons k rest =>
    rw [hpk] at h
    rcases h with h | h
    · simp at h
    · have hr : 0 < rest.length := by
        simp at h
        omega
      simp [handle, hpk, hr]

/-- Witness for C2: both `fibonacci` and `prime` present, each individually
valid, still rejected. -/
theorem dispatcher_key_count_rejection_witness :
    handle (.obj ⟨some (.jint 3), some (.jarr [.jint 2]), none, none, none⟩) [] =
      .err 400 (errorResponse exactlyOneMsg) :=
  dispatcher_key_count_rejection ⟨some (.jint 3), some (.jarr [.jint 2]), none, none, none⟩
    [] (by decide)

/-- C3: for `n ≥ 0` the series has length `n`, starts `0, 1`, satisfies the
Fibonacci recurrence, matches the listed concrete values, and a `fibonacci`
request with value `-1` is answered 400. -/
theorem fibonacci_spec (n : Int) (hn : 0 ≤ n) :
    (fibonacci n).length = n.toNat ∧
    (1 ≤ n → (fibonacci n).getD 0 0 = 0) ∧
    (2 ≤ n → (fibonacci n).getD 1 0 = 1) ∧
    (∀ i : Nat, i + 2 < (fibonacci n).length →
      (fibonacci n).getD (i + 2) 0 = (fibonacci n).getD i 0 + (fibonacci n).getD (i + 1) 0) ∧
    fibonacci 0 = [] ∧ fibonacci 1 = [0] ∧ fibonacci 5 = [0, 1, 1, 2, 3] ∧
    handle (.obj ⟨some (.jint (-1)), none, none, none, none⟩) [] =
      .err 400 (errorResponse "'fibonacci' must be a non-negative integer.") := by
  refine ⟨fibonacci_length n hn, ?_, ?_, fibonacci_recurrence n, rfl, rfl, by decide, by decide⟩
  · intro h1
    rcases lt_or_le n 2 with h2 | h2
    · have : n = 1 := by omega
      subst this
      rfl
    · rw [fibonacci_two_le n h2]
      rfl
  · intro h2
    rw [fibonacci_two_le n h2]
    rfl

/-- Witness for C3 at `n = 5`. -/
theorem fibonacci_spec_witness :
    0 ≤ (5 : Int) ∧ (fibonacci 5).length = (5 : Int).toNat :=
  ⟨by decide, (fibonacci_spec 5 (by decide)).1⟩

/-- C4: `filterPrimes` keeps order (it is a sublist of the input) and keeps
exactly the elements satisfying the reference primality predicate; elements
below 2 never survive. -/
theorem filterPrimes_spec (xs : List Int) :
    List.Sublist (filterPrimes xs) xs ∧
    (∀ x : Int, x ∈ filterPrimes xs ↔ x ∈ xs ∧ specPrime x) ∧
    (∀ x : Int, x ∈ filterPrimes xs → 2 ≤ x) := by
  refine ⟨List.filter_sublist xs, ?_, ?_⟩
  · intro x
    rw [filterPrimes, List.mem_filter, isPrime_iff]
  · intro x hx
    exact ((isPrime_iff x).mp (List.mem_filter.mp hx).2).1

/-- Witness for C4: the membership characterization evaluated on
`[1, 2, 3, 4, 5, 6]`. -/
theorem filterPrimes_spec_witness :
    (2 : Int) ∈ [1, 2, 3, 4, 5, 6] ∧ specPrime 2 :=
  ((filterPrimes_spec [1, 2, 3, 4, 5, 6]).2.1 2).mp (by decide)

/-- C5: `lcmArray` is the left fold of the spec's combiner from identity 1,
it is 0 exactly when the input contains 0, and `lcmArray [4, 6] = 12`. -/
theorem lcmArray_spec (xs : List Int) (_hne : xs ≠ []) :
    lcmArray xs = xs.foldl specLcmCombine 1 ∧
    (lcmArray xs = 0 ↔ (0 : Int) ∈ xs) ∧
    lcmArray [4, 6] = 12 := by
  refine ⟨?_, lcmArray_zero_iff xs, by simp [lcmArray, lcm, gcd_eq]⟩
  rw [lcmArray]
  have hfun : (fun acc val => lcm acc val) = specLcmCombine :=
    funext fun a => funext fun b => lcm_eq_spec a b
  rw [hfun]

/-- Witness for C5 at `[4, 6]`. -/
theorem lcmArray_spec_witness :
    lcmArray [4, 6] = List.foldl specLcmCombine 1 [4, 6] :=
  (lcmArray_spec [4, 6] (by decide)).1

/-- C6: for nonzero `a`, `b` the product of the folded LCM and HCF of `[a, b]`
is `|a * b|`. -/
theorem lcm_hcf_product_identity (a b : Int) (_ha : a ≠ 0) (_hb : b ≠ 0) :
    lcmArray [a, b] * (hcfArray [a, b]).getD 0 = |a * b| := by
  have h2 : lcmArray [a, b] = ((Nat.lcm a.natAbs b.natAbs : Nat) : Int) := by
    show lcm (lcm 1 a) b = _
    rw [lcm_eq 1 a, lcm_eq]
    simp [Nat.lcm_one_left, Int.natAbs_abs]
  have h3 : (hcfArray [a, b]).getD 0 = ((Nat.gcd a.natAbs b.natAbs : Nat) : Int) := by
    show (some (gcd a b)).getD 0 = _
    rw [Option.getD_some, gcd_eq]
  rw [h2, h3, ← Nat.cast_mul, mul_comm (Nat.lcm a.natAbs b.natAbs), Nat.gcd_mul_lcm,
    ← Int.natAbs_mul, Int.natCast_natAbs]

/-- Witness for C6 at `a = 4`, `b = 6`. -/
theorem lcm_hcf_product_identity_witness :
    lcmArray [4, 6] * (hcfArray [(4 : Int), 6]).getD 0 = |(4 : Int) * 6| :=
  lcm_hcf_product_identity 4 6 (by decide) (by decide)

/-- C7: the folded HCF is invariant under permutation of a non-empty input,
and so is the folded LCM (stated, as the claim does, under the hypothesis
that no element is zero, though the proof does not need it). -/
theorem fold_permutation_invariance (xs ys : List Int) (hne : xs ≠ [])
    (hperm : ys.Perm xs) :
    hcfArray ys = hcfArray xs ∧
      ((∀ a ∈ xs, a ≠ 0) → lcmArray ys = lcmArray xs) :=
  ⟨hcfArray_perm xs ys hne hperm, fun _ => lcmArray_perm xs ys hperm⟩

/-- Witness for C7: `[18, 12]` against `[12, 18]`. -/
theorem fold_permutation_invariance_witness :
    hcfArray [18, 12] = hcfArray [(12 : Int), 18] :=
  (fold_permutation_invariance [12, 18] [18, 12] (by decide) (by decide)).1



/-- C8: `hcfArray` fails (throws, modelled `none`) on the empty list, but the
validation precondition makes that branch unreachable: every validated `hcf`
value yields a non-empty integer list on which the seedless fold returns an
integer, and no request at all can produce a 500 response. -/
theorem hcfArray_empty_guard :
    hcfArray ([] : List Int) = none ∧
    (∀ v : JVal, isValidIntegerArray v = true →
      (hcfArray (extractInts v)).isSome = true) ∧
    (∀ (b : ReqBody) (ai : List (Except String String)) (e : ErrorBody),
      handle b ai ≠ .err 500 e) := by
  refine ⟨rfl, ?_, ?_⟩
  · intro v hv
    exact hcfArray_isSome_of_ne_nil _ (validArray_extractInts_ne_nil v hv)
  · intro b ai e
    cases b with
    | notObject => simp [handle]
    | obj o =>
      cases hpk : presentKeys o with
      | nil => simp [handle, hpk]
      | cons k rest =>
        by_cases hr : 0 < rest.length
        · simp [handle, hpk, hr]
        · have hrest : rest = [] := by
            cases rest with
            | nil => rfl
            | cons a as => simp at hr
          subst hrest
          rw [handle_singleKey o k ai hpk]
          cases k with
          | fibonacci =>
            rcases hv : asInt ((getProp o .fibonacci).getD .jnull) with _ | n <;>
              simp [dispatch, hv] <;> split <;> simp
          | prime => simp only [dispatch]; split <;> simp
          | lcm => simp only [dispatch]; split <;> simp
          | hcf =>
            simp only [dispatch]
            split
            · rename_i hval
              obtain ⟨r, hrr⟩ := Option.isSome_iff_exists.mp
                (hcfArray_isSome_of_ne_nil _ (validArray_extractInts_ne_nil _ hval))
              simp [hrr]
            · simp
          | AI =>
            simp only [dispatch]
            split
            · rcases ha : askAI ai with w | msg <;> simp [ha]
            · simp

/-- Witness for C8: a concrete validated `hcf` value. -/
theorem hcfArray_empty_guard_witness :
    isValidIntegerArray (.jarr [.jint 12, .jint 18]) = true ∧
      (hcfArray (extractInts (.jarr [.jint 12, .jint 18]))).isSome = true :=
  ⟨by decide, hcfArray_empty_guard.2.1 (.jarr [.jint 12, .jint 18]) (by decide)⟩

/-- C9: `askAI` walks the fixed three-model list in order, returns the
processed first token of the first success, throws only when every attempt
throws and then propagates the last error observed, and the handler turns
that exhaustion into a 503 response. -/
theorem askAI_fallback_spec :
    models = ["gemini-2.5-flash", "gemini-2.0-flash", "gemini-2.0-flash-lite"] ∧
    (∀ (es : List String) (t : String) (rest : List (Except String String)),
      askAI (es.map Except.error ++ Except.ok t :: rest) = Except.ok (extractWord t)) ∧
    (∀ (attempts : List (Except String String)) (e : String),
      askAI attempts = Except.error e → ∀ a ∈ attempts, ∃ msg, a = Except.error msg) ∧
    (∀ es : List String,
      askAI (es.map Except.error) =
        Except.error (es.getLast?.getD "All AI models failed.")) ∧
    (∀ (o : BfhlObj) (s : String) (es : List String), presentKeys o = [.AI] →
      getProp o .AI = some (.jstr s) → isNonEmptyString (.jstr s) = true →
      handle (.obj o) (es.map Except.error) =
        .err 503 (errorResponse
          "AI service is temporarily unavailable. Please try again later.")) := by
  refine ⟨rfl, askAI_first_success, ?_, askAI_all_errors, ?_⟩
  · intro attempts e h
    exact askAIGo_error_all attempts none e h
  · intro o s es hp hv hs
    rw [handle_singleKey o _ _ hp, hv]
    simp [dispatch, hs, askAI_all_errors es]

/-- Witness for C9: three failing models at a concrete `AI` request. -/
theorem askAI_fallback_spec_witness :
    handle (.obj ⟨none, none, none, none, some (.jstr "capital of France?")⟩)
        (["quota", "quota", "outage"].map Except.error) =
      .err 503 (errorResponse
        "AI service is temporarily unavailable. Please try again later.") :=
  askAI_fallback_spec.2.2.2.2 ⟨none, none, none, none, some (.jstr "capital of France?")⟩
    "capital of France?" ["quota", "quota", "outage"] (by decide) rfl (by decide)

/-- C10: a singleton fold returns its element unchanged (sign included), while
any fold over two or more elements is non-negative because the pairwise
combiner works on absolute values. -/
theorem hcfArray_singleton_sign :
    (∀ a : Int, hcfArray [a] = some a) ∧
    hcfArray [-5] = some (-5) ∧
    (∀ l : List Int, 2 ≤ l.length → ∀ r : Int, hcfArray l = some r → 0 ≤ r) := by
  refine ⟨fun a => rfl, rfl, ?_⟩
  intro l hl r hr
  match l, hl with
  | x :: y :: rest, _ =>
    rw [hcfArray_two] at hr
    have := (Option.some_inj.mp hr).symm
    subst this
    exact Int.natCast_nonneg _

/-- Witness for C10: `[-7]` keeps its sign, `[3, -6]` folds to a non-negative
value. -/
theorem hcfArray_singleton_sign_witness :
    hcfArray [(-7 : Int)] = some (-7) ∧ (0 : Int) ≤ 3 :=
  ⟨hcfArray_singleton_sign.1 (-7),
    hcfArray_singleton_sign.2.2 [3, -6] (by decide) 3 (by norm_num [hcfArray, gcd_eq])⟩


end Bfhl
